import Mathlib

/-!
Verification of the adaptive chunking subsystem of `src/src/chunk_adaptive.c`
(TimescaleDB-style adaptive partition sizing).

The development shallowly embeds the C source:

* Machine `int64` values are modelled as unbounded `Int` (the claims under
  study never exercise 64-bit overflow), and C `double` arithmetic is
  modelled exactly over `ℚ`; a C cast `(int64) d` of a double is the
  truncation toward zero `qtrunc`.  C integer division (`int64 / int64`,
  which truncates toward zero) is `Int.tdiv`.
* Postgres `Datum` column values are modelled as `Int` (an ordered column
  type whose comparison proc is the usual order), heap rows as
  `Option Int` (`none` = SQL NULL), and a btree index as the list of the
  relation's non-null column values in ascending order.
* Catalog/externals (dimension lookup, `chunk_get_window`,
  `pg_total_relation_size`, GUC reads) are inputs to the embedded
  functions, exactly as the spec describes them as external collaborators.
-/

namespace ChunkAdaptive

/-- Truncation of a rational toward zero, the behaviour of a C `(int64)`
cast applied to a `double`. -/
def qtrunc (q : ℚ) : Int := if 0 ≤ q then ⌊q⌋ else -⌊-q⌋

lemma qtrunc_of_nonneg {q : ℚ} (h : 0 ≤ q) : qtrunc q = ⌊q⌋ := if_pos h

lemma qtrunc_nonneg {q : ℚ} (h : 0 ≤ q) : 0 ≤ qtrunc q := by
  rw [qtrunc_of_nonneg h]; exact Int.floor_nonneg.mpr h

lemma qtrunc_mono_of_nonneg {q r : ℚ} (hq : 0 ≤ q) (hqr : q ≤ r) :
    qtrunc q ≤ qtrunc r := by
  rw [qtrunc_of_nonneg hq, qtrunc_of_nonneg (hq.trans hqr)]
  exact Int.floor_le_floor hqr

lemma qtrunc_eval {q : ℚ} (n : Int) (h0 : 0 ≤ q) (h1 : (n : ℚ) ≤ q)
    (h2 : q < n + 1) : qtrunc q = n := by
  rw [qtrunc_of_nonneg h0]
  exact Int.floor_eq_iff.mpr ⟨h1, h2⟩

/-- Result of a min/max scan, `MinMaxResult` of the source (lines 183-188). -/
inductive MinMaxResult
  | noIndex
  | noTuples
  | found
deriving DecidableEq, Repr

/-- A scan's `MinMaxResult` together with the caller-provided `Datum
minmax[2]` array after the scan (slot 0, slot 1). -/
structure ScanOut where
  res : MinMaxResult
  minmax : Int × Int
deriving DecidableEq, Repr

/-- State of the running min/max of `minmax_heapscan`: the `nulls[2]` flags
and the `minmax[2]` slots. -/
structure HeapState where
  null0 : Bool
  null1 : Bool
  m0 : Int
  m1 : Int
deriving DecidableEq, Repr

/-- One iteration of the `heap_getnext` loop of `minmax_heapscan`
(source lines 211-232): skip NULLs, then check for a new min against
slot 0 and for a new max against slot 1. -/
def heap_step (s : HeapState) (row : Option Int) : HeapState :=
  match row with
  | none => s
  | some value =>
    let s1 := if s.null0 || decide (value < s.m0)
              then { s with null0 := false, m0 := value } else s
    if s1.null1 || decide (value > s1.m1)
    then { s1 with null1 := false, m1 := value } else s1

/-- Heap-scan strategy for min/max (source lines 195-237).  `mm` is the
content of the caller's uninitialized `Datum minmax[2]` array.  The C
initializer `bool nulls[2] = {true}` sets `nulls[0]` to true but
zero-initializes `nulls[1]` to false, which the model reproduces: the
max slot starts out "already set" to the garbage value `mm.2`. -/
def minmax_heapscan (rows : List (Option Int)) (mm : Int × Int) : ScanOut :=
  let s := rows.foldl heap_step ⟨true, false, mm.1, mm.2⟩
  if s.null0 || s.null1 then ⟨.noTuples, (s.m0, s.m1)⟩
  else ⟨.found, (s.m0, s.m1)⟩

/-- Ascending insertion, used to model btree index order. -/
def insertAsc (x : Int) : List Int → List Int
  | [] => [x]
  | y :: ys => if x ≤ y then x :: y :: ys else y :: insertAsc x ys

/-- The order in which an index whose leading column is the scanned column
returns the relation's rows: non-null column values ascending.  (Index
entries for NULL rows are not modelled; no claim under study involves a
NULL at an index extreme.) -/
def indexOrder (rows : List (Option Int)) : List Int :=
  (rows.filterMap id).foldr insertAsc []

/-- Index-scan strategy for min/max (source lines 242-273).  The source
first does a *backward* scan (`BackwardScanDirection`, retrieving the
largest entry) and stores its value at slot `n = 0`, then increments `n`
and stores the *forward* scan's value (the smallest entry) at slot 1.
An empty relation leaves both slots untouched and yields `noTuples`;
a nonempty one yields `found` with (largest, smallest) in (slot 0, slot 1).
The two middle cases of the match are vacuous (a list has a last element
iff it has a head) but mirror the `n++` bookkeeping of the source. -/
def minmax_indexscan (rows : List (Option Int)) (mm : Int × Int) : ScanOut :=
  let sorted := indexOrder rows
  match sorted.getLast?, sorted.head? with
  | some vback, some vfwd => ⟨.found, (vback, vfwd)⟩
  | some vback, none => ⟨.noTuples, (vback, mm.2)⟩
  | none, some vfwd => ⟨.noTuples, (vfwd, mm.2)⟩
  | none, none => ⟨.noTuples, mm⟩

/-- A relation's index as far as this module observes it: the attribute
number of its leading column (`idxrel->rd_att->attrs[0]->attnum`). -/
structure PgIndex where
  leading_attnum : Int
deriving DecidableEq, Repr

/-- The `foreach` loop of `relation_minmax_indexscan` (source lines
288-301): scan each index whose leading column is the target column,
breaking out of the loop once a scan reports `found`. -/
def relation_minmax_loop (rows : List (Option Int)) (attnum : Int) :
    List PgIndex → MinMaxResult × (Int × Int) → MinMaxResult × (Int × Int)
  | [], st => st
  | idx :: rest, (res, mm) =>
    let st' := if idx.leading_attnum = attnum
               then let o := minmax_indexscan rows mm; (o.res, o.minmax)
               else (res, mm)
    if st'.1 = .found then st' else relation_minmax_loop rows attnum rest st'

/-- Min/max via the relation's indexes (source lines 278-304): result
starts as `noIndex` and is replaced by each matching index's scan
result. -/
def relation_minmax_indexscan (indexes : List PgIndex)
    (rows : List (Option Int)) (attnum : Int) (mm : Int × Int) :
    MinMaxResult × (Int × Int) :=
  relation_minmax_loop rows attnum indexes (.noIndex, mm)

/-- Observable outcome of `chunk_get_minmax`: the boolean return value,
the final `minmax` array, and whether the heap-scan fallback (and its
missing-index warning, source lines 329-337) ran. -/
structure MinMaxOut where
  found : Bool
  minmax : Int × Int
  heap_fallback : Bool
deriving DecidableEq, Repr

/-- Min/max for a chunk's column (source lines 323-342): try the indexes;
only on `MINMAX_NO_INDEX` emit the warning and fall back to a full heap
scan.  Returns true iff the final result is `MINMAX_FOUND`. -/
def chunk_get_minmax (indexes : List PgIndex) (rows : List (Option Int))
    (attnum : Int) (mm : Int × Int) : MinMaxOut :=
  let st := relation_minmax_indexscan indexes rows attnum mm
  if st.1 = .noIndex then
    let o := minmax_heapscan rows st.2
    ⟨o.res == .found, o.minmax, true⟩
  else
    ⟨st.1 == .found, st.2, false⟩

lemma minmax_indexscan_nil (mm : Int × Int) :
    minmax_indexscan [] mm = ⟨.noTuples, mm⟩ := rfl

/-- On an empty relation the index loop never reports `found`: it ends in
`noTuples` when some index matches the column, and in the initial result
otherwise; the `minmax` array is never written. -/
lemma relation_minmax_loop_nil_rows (attnum : Int) (mm : Int × Int) :
    ∀ (l : List PgIndex) (res : MinMaxResult), res ≠ .found →
      relation_minmax_loop [] attnum l (res, mm) =
        (if ∃ i ∈ l, i.leading_attnum = attnum then .noTuples else res, mm) := by
  intro l
  induction l with
  | nil => intro res _; simp [relation_minmax_loop]
  | cons idx rest ih =>
    intro res hres
    rw [relation_minmax_loop]
    by_cases hmatch : idx.leading_attnum = attnum
    · simp only [hmatch, eq_self_iff_true, if_true, minmax_indexscan_nil]
      rw [if_neg (by simp), ih .noTuples (by simp)]
      simp [hmatch]
    · simp only [if_neg hmatch]
      rw [if_neg (by simpa using hres), ih res hres]
      simp [hmatch]

/-- C1: evaluation of the two strategies at the failing input.  On a chunk
holding the values 1 and 5 with a matching index, the index-assisted path
returns `found` with the *largest* value in `minmax[0]` and the smallest
in `minmax[1]` — the caller's `min = minmax[0] = 5`, `max = minmax[1] = 1`
violates min ≤ max — whereas the heap scan (run here with two different
contents of the uninitialized array) puts the minimum in slot 0, and its
slot 1 can even surface the uninitialized value 7 because `nulls[1]` is
zero-initialized to false. -/
theorem c1_indexscan_swaps_min_and_max :
    chunk_get_minmax [⟨1⟩] [some 1, some 5] 1 (0, 0) = ⟨true, (5, 1), false⟩ ∧
    minmax_heapscan [some 1, some 5] (0, 0) = ⟨.found, (1, 5)⟩ ∧
    minmax_heapscan [some 1, some 5] (0, 7) = ⟨.found, (1, 7)⟩ ∧
    ¬ ((5 : Int) ≤ 1) := by decide

/-- C10: if at least one index on the partition has the target column as
its leading column but the partition is empty, `chunk_get_minmax` returns
false (no data) without running the heap-scan fallback and without the
missing-index warning, and leaves the `minmax` array untouched. -/
theorem c10_empty_partition_with_index_skips_heapscan
    (indexes : List PgIndex) (attnum : Int) (mm : Int × Int)
    (hidx : ∃ i ∈ indexes, i.leading_attnum = attnum) :
    chunk_get_minmax indexes [] attnum mm = ⟨false, mm, false⟩ := by
  unfold chunk_get_minmax relation_minmax_indexscan
  rw [relation_minmax_loop_nil_rows attnum mm indexes .noIndex (by simp),
    if_pos hidx]
  simp

/-- Witness for C10 at a concrete input: one matching index, empty
partition. -/
theorem c10_empty_partition_with_index_skips_heapscan_witness :
    chunk_get_minmax [⟨1⟩] [] 1 (9, 9) = ⟨false, (9, 9), false⟩ :=
  c10_empty_partition_with_index_skips_heapscan [⟨1⟩] 1 (9, 9) (by decide)

/-! The adaptive interval estimator (`calculate_chunk_interval`,
source lines 352-639).  The dimension's current interval and the window
of chunks (delivered by the external `chunk_get_window`, each with its
`pg_total_relation_size` and the min/max located by `chunk_get_minmax`)
are parameters of the embedding. -/

/-- Threshold constants of the source (lines 352-374), as exact
rationals: 0.5, 0.15, 0.15, 1, and 0.15 × 1.1 = 0.165. -/
def INTERVAL_FILLFACTOR_THRESH : ℚ := 1/2

def SIZE_FILLFACTOR_THRESH : ℚ := 3/20

def INTERVAL_MIN_CHANGE_THRESH : ℚ := 3/20

def NUM_UNDERSIZED_INTERVALS : Nat := 1

def UNDERSIZED_FILLFACTOR_THRESH : ℚ := SIZE_FILLFACTOR_THRESH * (11/10)

/-- One chunk of the window as `calculate_chunk_interval` observes it:
its slice along the dimension, its physical size in bytes, and the
outcome of `chunk_get_minmax` on the partitioning column (`none` when
that call returned false; otherwise the internal representations of
`minmax[0]` and `minmax[1]`, read by the caller as `min` and `max`). -/
structure ChunkSample where
  range_start : Int
  range_end : Int
  chunk_size : Int
  minmax : Option (Int × Int)
deriving DecidableEq, Repr

/-- `slice->fd.range_end - slice->fd.range_start` (source line 518). -/
def slice_interval (c : ChunkSample) : Int := c.range_end - c.range_start

/-- `interval_fillfactor = ((double) max - min) / slice_interval`
(source line 533). -/
def interval_fillfactor_of (c : ChunkSample) (mn mx : Int) : ℚ :=
  ((mx : ℚ) - (mn : ℚ)) / ((slice_interval c : Int) : ℚ)

/-- `extrapolated_chunk_size = chunk_size / interval_fillfactor`
(source line 539; an `int64`, so the double quotient is truncated). -/
def extrapolated_chunk_size_of (c : ChunkSample) (mn mx : Int) : Int :=
  qtrunc ((c.chunk_size : ℚ) / interval_fillfactor_of c mn mx)

/-- `size_fillfactor = ((double) extrapolated_chunk_size) /
chunk_target_size_bytes` (source line 540). -/
def size_fillfactor_of (target : Int) (c : ChunkSample) (mn mx : Int) : ℚ :=
  ((extrapolated_chunk_size_of c mn mx : Int) : ℚ) / ((target : Int) : ℚ)

/-- The per-chunk term `slice_interval / size_fillfactor` accumulated on
the usable path (source line 562). -/
def usable_contribution (target : Int) (c : ChunkSample) (mn mx : Int) : ℚ :=
  ((slice_interval c : Int) : ℚ) / size_fillfactor_of target c mn mx

/-- The accumulators of `calculate_chunk_interval`'s chunk loop (source
lines 463-474): `chunk_interval` and `undersized_intervals` are `int64`,
the two counts are `int`, `undersized_fillfactor` is a `double`. -/
structure AccState where
  chunk_interval : Int
  undersized_intervals : Int
  num_intervals : Nat
  num_undersized_intervals : Nat
  undersized_fillfactor : ℚ
deriving DecidableEq, Repr

/-- One iteration of the `foreach(lc, chunks)` loop (source lines
504-580).  A chunk whose `chunk_get_minmax` failed is skipped; otherwise
it is classified usable (both fillfactor thresholds strictly exceeded),
undersized-but-dense (only the interval fillfactor threshold holds), or
ignored.  `chunk_interval += slice_interval / size_fillfactor` adds a
double to an `int64`, so the sum is re-truncated at every step. -/
def classify_step (target : Int) (s : AccState) (c : ChunkSample) : AccState :=
  match c.minmax with
  | none => s
  | some (mn, mx) =>
    let interval_fillfactor := interval_fillfactor_of c mn mx
    let size_fillfactor := size_fillfactor_of target c mn mx
    if INTERVAL_FILLFACTOR_THRESH < interval_fillfactor ∧
       SIZE_FILLFACTOR_THRESH < size_fillfactor then
      { s with
        chunk_interval :=
          qtrunc ((s.chunk_interval : ℚ) + usable_contribution target c mn mx)
        num_intervals := s.num_intervals + 1 }
    else if INTERVAL_FILLFACTOR_THRESH < interval_fillfactor then
      { s with
        undersized_intervals := s.undersized_intervals + slice_interval c
        undersized_fillfactor := s.undersized_fillfactor + size_fillfactor
        num_undersized_intervals := s.num_undersized_intervals + 1 }
    else s

/-- Accumulator state after the whole window has been classified. -/
def window_state (target : Int) (chunks : List ChunkSample) : AccState :=
  chunks.foldl (classify_step target) ⟨0, 0, 0, 0, 0⟩

/-- The dampening step (source lines 617-636): `interval_diff =
fabs(1.0 - ((double) chunk_interval / current_interval))`; at most
`INTERVAL_MIN_CHANGE_THRESH`, the candidate is discarded and the current
interval kept; otherwise the candidate is adopted. -/
def dampen (current_interval ci : Int) : Int :=
  let interval_diff : ℚ :=
    |1 - ((ci : Int) : ℚ) / ((current_interval : Int) : ℚ)|
  if interval_diff ≤ INTERVAL_MIN_CHANGE_THRESH then current_interval else ci

/-- The undersized-boost candidate (source lines 594-604):
`avg_fillfactor` and `avg_interval` are the (double, resp. truncated
`int64`) means over the undersized samples, and the candidate is
`avg_interval * (UNDERSIZED_FILLFACTOR_THRESH / avg_fillfactor)` cast
back to `int64`.  Caveat: when `avg_fillfactor` is exactly 0 (every
undersized sample had a zero size fillfactor), the C source computes
`incr_factor = +inf` and line 603's `(int64)` conversion of an infinite
double is undefined behaviour (`INT64_MIN` on x86-64); the rational
model's total division instead yields 0 here.  Theorems drawing
conclusions about the boost path therefore carry hypotheses keeping
`avg_fillfactor` strictly positive, where model and source agree. -/
def boost_candidate (s : AccState) : Int :=
  let avg_fillfactor : ℚ :=
    s.undersized_fillfactor / ((s.num_undersized_intervals : Nat) : ℚ)
  let incr_factor : ℚ := UNDERSIZED_FILLFACTOR_THRESH / avg_fillfactor
  let avg_interval : Int :=
    Int.tdiv s.undersized_intervals ((s.num_undersized_intervals : Nat) : Int)
  qtrunc ((avg_interval : ℚ) * incr_factor)

/-- The usable-path candidate, `chunk_interval /= num_intervals`
(source line 615; C `int64` division truncates toward zero). -/
def usable_candidate (s : AccState) : Int :=
  Int.tdiv s.chunk_interval ((s.num_intervals : Nat) : Int)

/-- The candidate interval computed before dampening (meaningful when at
least one of the two candidate paths is taken). -/
def candidate_interval (target : Int) (chunks : List ChunkSample) : Int :=
  let s := window_state target chunks
  if s.num_intervals = 0 then boost_candidate s else usable_candidate s

/-- The body of `calculate_chunk_interval` (source lines 457-639) after
its catalog lookups: classify the window, then either take the
undersized-boost path (no usable samples, strictly more than
`NUM_UNDERSIZED_INTERVALS` undersized ones), return the current interval
unchanged (no usable samples, not enough undersized ones), or average the
usable samples' implied intervals; the two candidate paths end in the
dampening step. -/
def calculate_chunk_interval (current_interval target : Int)
    (chunks : List ChunkSample) : Int :=
  let s := window_state target chunks
  if s.num_intervals = 0 ∧ NUM_UNDERSIZED_INTERVALS < s.num_undersized_intervals then
    dampen current_interval (boost_candidate s)
  else if s.num_intervals = 0 then
    current_interval
  else
    dampen current_interval (usable_candidate s)

lemma classify_step_skip {c : ChunkSample} (target : Int) (s : AccState)
    (hmm : c.minmax = none) : classify_step target s c = s := by
  unfold classify_step; rw [hmm]

lemma classify_step_usable {c : ChunkSample} {mn mx : Int} (target : Int)
    (s : AccState) (hmm : c.minmax = some (mn, mx))
    (h1 : INTERVAL_FILLFACTOR_THRESH < interval_fillfactor_of c mn mx)
    (h2 : SIZE_FILLFACTOR_THRESH < size_fillfactor_of target c mn mx) :
    classify_step target s c =
      { s with
        chunk_interval :=
          qtrunc ((s.chunk_interval : ℚ) + usable_contribution target c mn mx)
        num_intervals := s.num_intervals + 1 } := by
  unfold classify_step
  rw [hmm]
  exact if_pos ⟨h1, h2⟩

lemma classify_step_undersized {c : ChunkSample} {mn mx : Int} (target : Int)
    (s : AccState) (hmm : c.minmax = some (mn, mx))
    (h1 : INTERVAL_FILLFACTOR_THRESH < interval_fillfactor_of c mn mx)
    (h2 : ¬ SIZE_FILLFACTOR_THRESH < size_fillfactor_of target c mn mx) :
    classify_step target s c =
      { s with
        undersized_intervals := s.undersized_intervals + slice_interval c
        undersized_fillfactor :=
          s.undersized_fillfactor + size_fillfactor_of target c mn mx
        num_undersized_intervals := s.num_undersized_intervals + 1 } := by
  unfold classify_step
  rw [hmm]
  dsimp only
  rw [if_neg (fun h => h2 h.2), if_pos h1]

lemma classify_step_ignored {c : ChunkSample} {mn mx : Int} (target : Int)
    (s : AccState) (hmm : c.minmax = some (mn, mx))
    (h1 : ¬ INTERVAL_FILLFACTOR_THRESH < interval_fillfactor_of c mn mx) :
    classify_step target s c = s := by
  unfold classify_step
  rw [hmm]
  dsimp only
  rw [if_neg (fun h => h1 h.1), if_neg h1]

/-- Evaluation of the window state for the literal scenario of the spec:
one chunk of slice width 86400, located span 0..86400, physical size
120000000, against target 100000000. -/
lemma window_state_literal :
    window_state 100000000 [⟨0, 86400, 120000000, some (0, 86400)⟩] =
      ⟨72000, 0, 1, 0, 0⟩ := by
  have hff : interval_fillfactor_of ⟨0, 86400, 120000000, some (0, 86400)⟩
      0 86400 = 1 := by
    unfold interval_fillfactor_of slice_interval; norm_num
  have hex : extrapolated_chunk_size_of ⟨0, 86400, 120000000, some (0, 86400)⟩
      0 86400 = 120000000 := by
    unfold extrapolated_chunk_size_of
    rw [hff]
    exact qtrunc_eval 120000000 (by norm_num) (by norm_num) (by norm_num)
  have hsff : size_fillfactor_of 100000000
      ⟨0, 86400, 120000000, some (0, 86400)⟩ 0 86400 = 6/5 := by
    unfold size_fillfactor_of; rw [hex]; norm_num
  have hcontrib : usable_contribution 100000000
      ⟨0, 86400, 120000000, some (0, 86400)⟩ 0 86400 = 72000 := by
    unfold usable_contribution slice_interval; rw [hsff]; norm_num
  unfold window_state
  rw [List.foldl_cons, List.foldl_nil,
    classify_step_usable 100000000 _ rfl
      (by rw [hff]; norm_num [INTERVAL_FILLFACTOR_THRESH])
      (by rw [hsff]; norm_num [SIZE_FILLFACTOR_THRESH]),
    hcontrib]
  have : qtrunc (((0 : Int) : ℚ) + 72000) = 72000 :=
    qtrunc_eval 72000 (by norm_num) (by norm_num) (by norm_num)
  rw [this]

/-- C4: the literal scenario of the spec.  Current interval 86400, target
100000000 bytes, one chunk with slice width 86400, located span 86400
(interval fillfactor 1.0) and physical size 120000000 bytes
(size fillfactor 1.2): the candidate 86400 / 1.2 = 72000 differs from the
current interval by 1/6 > 0.15 and is adopted. -/
theorem c4_literal_scenario :
    calculate_chunk_interval 86400 100000000
      [⟨0, 86400, 120000000, some (0, 86400)⟩] = 72000 := by
  unfold calculate_chunk_interval
  rw [window_state_literal]
  rw [if_neg (by simp), if_neg (by simp)]
  unfold usable_candidate dampen
  norm_num
  rw [abs_of_nonneg (by norm_num)]
  norm_num [INTERVAL_MIN_CHANGE_THRESH]

/-- Decides whether a chunk's located value range is degenerate: min/max
found but equal (`interval_fillfactor` exactly 0). -/
def degenerate_minmax (c : ChunkSample) : Bool :=
  match c.minmax with
  | some (mn, mx) => mn == mx
  | none => false

lemma classify_step_degenerate {c : ChunkSample} (target : Int) (s : AccState)
    (h : degenerate_minmax c = true) : classify_step target s c = s := by
  unfold degenerate_minmax at h
  rcases hmm : c.minmax with _ | ⟨mn, mx⟩
  · rw [hmm] at h; cases h
  · rw [hmm] at h
    have hEq : mn = mx := by simpa using h
    apply classify_step_ignored target s hmm
    unfold interval_fillfactor_of
    rw [hEq]
    norm_num [INTERVAL_FILLFACTOR_THRESH]

lemma foldl_classify_filter_degenerate (target : Int) :
    ∀ (l : List ChunkSample) (s : AccState),
      l.foldl (classify_step target) s =
        (l.filter (fun c => ! degenerate_minmax c)).foldl (classify_step target) s := by
  intro l
  induction l with
  | nil => intro s; rfl
  | cons c rest ih =>
    intro s
    by_cases hdeg : degenerate_minmax c = true
    · rw [List.foldl_cons, classify_step_degenerate target s hdeg,
        List.filter_cons_of_neg (by simp [hdeg]), ih]
    · rw [List.foldl_cons,
        List.filter_cons_of_pos (by simp [Bool.not_eq_true] at hdeg ⊢; exact hdeg),
        List.foldl_cons, ih]

/-- C3: a partition whose located min equals its located max (interval
fillfactor exactly 0) is ignored by the classification loop — it updates
no accumulator — and the returned interval is the same as if every such
partition were absent from the window, so the unguarded division
`chunk_size / interval_fillfactor` for it cannot flow into the result. -/
theorem c3_degenerate_span_is_ignored :
    (∀ (target : Int) (s : AccState) (rs re sz m : Int),
        classify_step target s ⟨rs, re, sz, some (m, m)⟩ = s) ∧
    (∀ (current target : Int) (chunks : List ChunkSample),
        calculate_chunk_interval current target chunks =
          calculate_chunk_interval current target
            (chunks.filter (fun c => ! degenerate_minmax c))) := by
  constructor
  · intro target s rs re sz m
    exact classify_step_degenerate target s (by simp [degenerate_minmax])
  · intro current target chunks
    unfold calculate_chunk_interval window_state
    rw [foldl_classify_filter_degenerate target chunks]

/-- C6: with no usable sample and at most `NUM_UNDERSIZED_INTERVALS`
undersized samples, `calculate_chunk_interval` returns the current
interval unchanged (the early return of source lines 606-613, before any
dampening). -/
theorem c6_no_evidence_returns_current (current target : Int)
    (chunks : List ChunkSample)
    (h0 : (window_state target chunks).num_intervals = 0)
    (h1 : (window_state target chunks).num_undersized_intervals ≤
      NUM_UNDERSIZED_INTERVALS) :
    calculate_chunk_interval current target chunks = current := by
  unfold calculate_chunk_interval
  dsimp only
  rw [if_neg (fun h => absurd h.2 (not_lt.mpr h1)), if_pos h0]

/-- Evaluation of the window state on a window holding a single
undersized-but-dense chunk (full span, extrapolated size 1 against target
1000, size fillfactor 1/1000). -/
lemma window_state_single_undersized :
    window_state 1000 [⟨0, 100, 1, some (0, 100)⟩] = ⟨0, 100, 0, 1, 1/1000⟩ := by
  have hff : interval_fillfactor_of ⟨0, 100, 1, some (0, 100)⟩ 0 100 = 1 := by
    unfold interval_fillfactor_of slice_interval; norm_num
  have hex : extrapolated_chunk_size_of ⟨0, 100, 1, some (0, 100)⟩ 0 100 = 1 := by
    unfold extrapolated_chunk_size_of
    rw [hff]
    exact qtrunc_eval 1 (by norm_num) (by norm_num) (by norm_num)
  have hsff : size_fillfactor_of 1000 ⟨0, 100, 1, some (0, 100)⟩ 0 100
      = 1/1000 := by
    unfold size_fillfactor_of; rw [hex]; norm_num
  unfold window_state
  rw [List.foldl_cons, List.foldl_nil,
    classify_step_undersized 1000 _ rfl
      (by rw [hff]; norm_num [INTERVAL_FILLFACTOR_THRESH])
      (by rw [hsff]; norm_num [SIZE_FILLFACTOR_THRESH]),
    hsff]
  norm_num [AccState.mk.injEq, slice_interval]

/-- Witness for C6: one undersized sample, no usable sample, and the
result is exactly the current interval 500. -/
theorem c6_no_evidence_returns_current_witness :
    calculate_chunk_interval 500 1000 [⟨0, 100, 1, some (0, 100)⟩] = 500 :=
  c6_no_evidence_returns_current 500 1000 _
    (by rw [window_state_single_undersized])
    (by rw [window_state_single_undersized]; decide)

lemma dampen_of_small {current_interval ci : Int}
    (h : |1 - ((ci : Int) : ℚ) / ((current_interval : Int) : ℚ)| ≤
      INTERVAL_MIN_CHANGE_THRESH) :
    dampen current_interval ci = current_interval := by
  unfold dampen
  dsimp only
  exact if_pos h

lemma dampen_of_large {current_interval ci : Int}
    (h : INTERVAL_MIN_CHANGE_THRESH <
      |1 - ((ci : Int) : ℚ) / ((current_interval : Int) : ℚ)|) :
    dampen current_interval ci = ci := by
  unfold dampen
  dsimp only
  exact if_neg (not_le.mpr h)

/-- Whenever one of the two candidate paths is taken, the result is the
dampening step applied to the candidate. -/
lemma calculate_eq_dampen_candidate (current target : Int)
    (chunks : List ChunkSample)
    (h : (window_state target chunks).num_intervals ≠ 0 ∨
      NUM_UNDERSIZED_INTERVALS <
        (window_state target chunks).num_undersized_intervals) :
    calculate_chunk_interval current target chunks =
      dampen current (candidate_interval target chunks) := by
  unfold calculate_chunk_interval candidate_interval
  dsimp only
  by_cases h0 : (window_state target chunks).num_intervals = 0
  · have h1 := h.resolve_left (not_not_intro h0)
    rw [if_pos ⟨h0, h1⟩, if_pos h0]
  · rw [if_neg (fun hc => h0 hc.1), if_neg h0, if_neg h0]

/-- C5: whenever a candidate interval was computed (usable path or
undersized-boost path), the function returns the unchanged current
interval if the candidate is within `INTERVAL_MIN_CHANGE_THRESH` (15%) of
it, and returns the candidate exactly when the relative change exceeds
the threshold. -/
theorem c5_hysteresis (current target : Int) (chunks : List ChunkSample)
    (h : (window_state target chunks).num_intervals ≠ 0 ∨
      NUM_UNDERSIZED_INTERVALS <
        (window_state target chunks).num_undersized_intervals) :
    (|1 - ((candidate_interval target chunks : Int) : ℚ) /
        ((current : Int) : ℚ)| ≤ INTERVAL_MIN_CHANGE_THRESH →
      calculate_chunk_interval current target chunks = current) ∧
    (INTERVAL_MIN_CHANGE_THRESH <
        |1 - ((candidate_interval target chunks : Int) : ℚ) /
          ((current : Int) : ℚ)| →
      calculate_chunk_interval current target chunks =
        candidate_interval target chunks) := by
  constructor
  · intro hle
    rw [calculate_eq_dampen_candidate current target chunks h]
    exact dampen_of_small hle
  · intro hgt
    rw [calculate_eq_dampen_candidate current target chunks h]
    exact dampen_of_large hgt

/-- Evaluation of the window state for the keep-current scenario: one
usable chunk implying interval 80000 (size fillfactor 1.08). -/
lemma window_state_keep :
    window_state 100000000 [⟨0, 86400, 108000000, some (0, 86400)⟩] =
      ⟨80000, 0, 1, 0, 0⟩ := by
  have hff : interval_fillfactor_of ⟨0, 86400, 108000000, some (0, 86400)⟩
      0 86400 = 1 := by
    unfold interval_fillfactor_of slice_interval; norm_num
  have hex : extrapolated_chunk_size_of
      ⟨0, 86400, 108000000, some (0, 86400)⟩ 0 86400 = 108000000 := by
    unfold extrapolated_chunk_size_of
    rw [hff]
    exact qtrunc_eval 108000000 (by norm_num) (by norm_num) (by norm_num)
  have hsff : size_fillfactor_of 100000000
      ⟨0, 86400, 108000000, some (0, 86400)⟩ 0 86400 = 27/25 := by
    unfold size_fillfactor_of; rw [hex]; norm_num
  have hcontrib : usable_contribution 100000000
      ⟨0, 86400, 108000000, some (0, 86400)⟩ 0 86400 = 80000 := by
    unfold usable_contribution slice_interval; rw [hsff]; norm_num
  unfold window_state
  rw [List.foldl_cons, List.foldl_nil,
    classify_step_usable 100000000 _ rfl
      (by rw [hff]; norm_num [INTERVAL_FILLFACTOR_THRESH])
      (by rw [hsff]; norm_num [SIZE_FILLFACTOR_THRESH]),
    hcontrib]
  have : qtrunc (((0 : Int) : ℚ) + 80000) = 80000 :=
    qtrunc_eval 80000 (by norm_num) (by norm_num) (by norm_num)
  rw [this]

lemma candidate_interval_keep :
    candidate_interval 100000000 [⟨0, 86400, 108000000, some (0, 86400)⟩] =
      80000 := by
  unfold candidate_interval
  rw [window_state_keep]
  decide

lemma candidate_interval_literal :
    candidate_interval 100000000 [⟨0, 86400, 120000000, some (0, 86400)⟩] =
      72000 := by
  unfold candidate_interval
  rw [window_state_literal]
  decide

/-- Witness for C5 at concrete inputs: candidate 80000 is within 15% of
the current interval 86400 (relative change 2/27), so 86400 is kept;
candidate 72000 differs by 1/6 > 15% and is adopted. -/
theorem c5_hysteresis_witness :
    calculate_chunk_interval 86400 100000000
      [⟨0, 86400, 108000000, some (0, 86400)⟩] = 86400 ∧
    calculate_chunk_interval 86400 100000000
      [⟨0, 86400, 120000000, some (0, 86400)⟩] =
      candidate_interval 100000000 [⟨0, 86400, 120000000, some (0, 86400)⟩] := by
  constructor
  · refine (c5_hysteresis 86400 100000000 _
      (Or.inl (by rw [window_state_keep]; decide))).1 ?_
    rw [candidate_interval_keep]
    rw [show (1 : ℚ) - ((80000 : Int) : ℚ) / ((86400 : Int) : ℚ) = 2/27 by
      norm_num]
    rw [abs_of_nonneg (by norm_num)]
    norm_num [INTERVAL_MIN_CHANGE_THRESH]
  · refine (c5_hysteresis 86400 100000000 _
      (Or.inl (by rw [window_state_literal]; decide))).2 ?_
    rw [candidate_interval_literal]
    rw [show (1 : ℚ) - ((72000 : Int) : ℚ) / ((86400 : Int) : ℚ) = 1/6 by
      norm_num]
    rw [abs_of_nonneg (by norm_num)]
    norm_num [INTERVAL_MIN_CHANGE_THRESH]

/-- C7: with no usable sample, the undersized-boost computation is used
exactly when strictly more than `NUM_UNDERSIZED_INTERVALS` (= 1)
undersized samples were collected — its result going through dampening —
while at most one undersized sample leaves the current interval
unchanged. -/
theorem c7_boost_activation (current target : Int) (chunks : List ChunkSample)
    (h0 : (window_state target chunks).num_intervals = 0) :
    (NUM_UNDERSIZED_INTERVALS <
        (window_state target chunks).num_undersized_intervals →
      calculate_chunk_interval current target chunks =
        dampen current (boost_candidate (window_state target chunks))) ∧
    ((window_state target chunks).num_undersized_intervals ≤
        NUM_UNDERSIZED_INTERVALS →
      calculate_chunk_interval current target chunks = current) := by
  constructor
  · intro h1
    unfold calculate_chunk_interval
    dsimp only
    rw [if_pos ⟨h0, h1⟩]
  · intro h1
    unfold calculate_chunk_interval
    dsimp only
    rw [if_neg (fun h => absurd h.2 (not_lt.mpr h1)), if_pos h0]

/-- Evaluation of the window state on two identical undersized chunks. -/
lemma window_state_two_undersized :
    window_state 1000 [⟨0, 100, 1, some (0, 100)⟩, ⟨0, 100, 1, some (0, 100)⟩] =
      ⟨0, 200, 0, 2, 1/500⟩ := by
  have hff : interval_fillfactor_of ⟨0, 100, 1, some (0, 100)⟩ 0 100 = 1 := by
    unfold interval_fillfactor_of slice_interval; norm_num
  have hex : extrapolated_chunk_size_of ⟨0, 100, 1, some (0, 100)⟩ 0 100 = 1 := by
    unfold extrapolated_chunk_size_of
    rw [hff]
    exact qtrunc_eval 1 (by norm_num) (by norm_num) (by norm_num)
  have hsff : size_fillfactor_of 1000 ⟨0, 100, 1, some (0, 100)⟩ 0 100
      = 1/1000 := by
    unfold size_fillfactor_of; rw [hex]; norm_num
  unfold window_state
  rw [List.foldl_cons, List.foldl_cons, List.foldl_nil,
    classify_step_undersized 1000 _ rfl
      (by rw [hff]; norm_num [INTERVAL_FILLFACTOR_THRESH])
      (by rw [hsff]; norm_num [SIZE_FILLFACTOR_THRESH]),
    classify_step_undersized 1000 _ rfl
      (by rw [hff]; norm_num [INTERVAL_FILLFACTOR_THRESH])
      (by rw [hsff]; norm_num [SIZE_FILLFACTOR_THRESH]),
    hsff]
  norm_num [AccState.mk.injEq, slice_interval]

/-- Witness for C7: two undersized samples trigger the boost path (whose
dampened result is adopted here), while a single undersized sample
returns the current interval. -/
theorem c7_boost_activation_witness :
    calculate_chunk_interval 100 1000
      [⟨0, 100, 1, some (0, 100)⟩, ⟨0, 100, 1, some (0, 100)⟩] =
      dampen 100 (boost_candidate
        (window_state 1000
          [⟨0, 100, 1, some (0, 100)⟩, ⟨0, 100, 1, some (0, 100)⟩])) ∧
    calculate_chunk_interval 300 1000 [⟨0, 100, 1, some (0, 100)⟩] = 300 := by
  constructor
  · exact (c7_boost_activation 100 1000 _
      (by rw [window_state_two_undersized])).1
      (by rw [window_state_two_undersized]; decide)
  · exact (c7_boost_activation 300 1000 _
      (by rw [window_state_single_undersized])).2
      (by rw [window_state_single_undersized]; decide)

lemma tdiv_nonneg_of_nonneg {a b : Int} (ha : 0 ≤ a) (hb : 0 ≤ b) :
    0 ≤ Int.tdiv a b := by
  obtain ⟨m, rfl⟩ := Int.eq_ofNat_of_zero_le ha
  obtain ⟨n, rfl⟩ := Int.eq_ofNat_of_zero_le hb
  rw [← Int.ofNat_tdiv]
  exact Int.ofNat_nonneg _

lemma tdiv_le_tdiv_right {a b c : Int} (ha : 0 ≤ a) (hc : 0 ≤ c)
    (h : a ≤ b) : Int.tdiv a c ≤ Int.tdiv b c := by
  obtain ⟨m, rfl⟩ := Int.eq_ofNat_of_zero_le ha
  obtain ⟨n, rfl⟩ := Int.eq_ofNat_of_zero_le (ha.trans h)
  obtain ⟨k, rfl⟩ := Int.eq_ofNat_of_zero_le hc
  rw [← Int.ofNat_tdiv, ← Int.ofNat_tdiv]
  exact_mod_cast Nat.div_le_div_right (by exact_mod_cast h)

lemma interval_fillfactor_pos_of_thresh {c : ChunkSample} {mn mx : Int}
    (h : INTERVAL_FILLFACTOR_THRESH < interval_fillfactor_of c mn mx) :
    0 < interval_fillfactor_of c mn mx :=
  lt_trans (by norm_num [INTERVAL_FILLFACTOR_THRESH]) h

lemma slice_cast_pos {c : ChunkSample} (h : c.range_start < c.range_end) :
    (0 : ℚ) < ((slice_interval c : Int) : ℚ) := by
  unfold slice_interval
  exact_mod_cast sub_pos.mpr h

lemma one_le_qtrunc {q : ℚ} (h : 1 ≤ q) : 1 ≤ qtrunc q := by
  rw [qtrunc_of_nonneg (zero_le_one.trans h)]
  exact Int.le_floor.mpr (by exact_mod_cast h)

/-- When the located span does not exceed the slice width, the interval
fillfactor is at most 1 (data inside a chunk lies within its slice). -/
lemma interval_fillfactor_le_one {c : ChunkSample} {mn mx : Int}
    (hslice : c.range_start < c.range_end)
    (hspan : mx - mn ≤ c.range_end - c.range_start) :
    interval_fillfactor_of c mn mx ≤ 1 := by
  unfold interval_fillfactor_of
  rw [div_le_one (slice_cast_pos hslice)]
  unfold slice_interval
  push_cast
  exact_mod_cast hspan

/-- A chunk of at least one byte whose interval fillfactor lies in
(1/2, 1] has a strictly positive size fillfactor: its extrapolated size
`qtrunc (chunk_size / interval_fillfactor)` is at least 1.  This is the
fact that keeps the undersized accumulator's fillfactor sum positive, so
that the boost path's `0.165 / avg_fillfactor` never divides by zero. -/
lemma size_fillfactor_pos {target : Int} {c : ChunkSample} {mn mx : Int}
    (htar : 0 < target) (hsz : 1 ≤ c.chunk_size)
    (hffhalf : INTERVAL_FILLFACTOR_THRESH < interval_fillfactor_of c mn mx)
    (hffle : interval_fillfactor_of c mn mx ≤ 1) :
    0 < size_fillfactor_of target c mn mx := by
  have hffpos : 0 < interval_fillfactor_of c mn mx :=
    interval_fillfactor_pos_of_thresh hffhalf
  have hdiv : (1 : ℚ) ≤ (c.chunk_size : ℚ) / interval_fillfactor_of c mn mx := by
    rw [one_le_div hffpos]
    exact hffle.trans (by exact_mod_cast hsz)
  have hex : 1 ≤ extrapolated_chunk_size_of c mn mx := by
    unfold extrapolated_chunk_size_of
    exact one_le_qtrunc hdiv
  have hexpos : 0 < extrapolated_chunk_size_of c mn mx :=
    lt_of_lt_of_le zero_lt_one hex
  unfold size_fillfactor_of
  exact div_pos (by exact_mod_cast hexpos) (by exact_mod_cast htar)

/-- Accumulator invariant of the classification loop, one step:
`chunk_interval` and `undersized_intervals` stay nonnegative, and the
undersized fillfactor sum stays strictly positive as soon as at least one
undersized sample was collected (each undersized sample contributes a
strictly positive `size_fillfactor` under the window hypotheses). -/
lemma classify_step_invariant {target : Int} (htar : 0 < target)
    (s : AccState) (c : ChunkSample)
    (hc : c.range_start < c.range_end ∧ 1 ≤ c.chunk_size ∧
      ∀ mn mx, c.minmax = some (mn, mx) →
        mx - mn ≤ c.range_end - c.range_start)
    (h0 : 0 ≤ s.chunk_interval) (h1 : 0 ≤ s.undersized_intervals)
    (h2 : 0 ≤ s.undersized_fillfactor)
    (h3 : s.num_undersized_intervals ≠ 0 → 0 < s.undersized_fillfactor) :
    0 ≤ (classify_step target s c).chunk_interval ∧
    0 ≤ (classify_step target s c).undersized_intervals ∧
    0 ≤ (classify_step target s c).undersized_fillfactor ∧
    ((classify_step target s c).num_undersized_intervals ≠ 0 →
      0 < (classify_step target s c).undersized_fillfactor) := by
  rcases hmm : c.minmax with _ | ⟨mn, mx⟩
  · rw [classify_step_skip target s hmm]
    exact ⟨h0, h1, h2, h3⟩
  · by_cases hU : INTERVAL_FILLFACTOR_THRESH < interval_fillfactor_of c mn mx ∧
        SIZE_FILLFACTOR_THRESH < size_fillfactor_of target c mn mx
    · rw [classify_step_usable target s hmm hU.1 hU.2]
      refine ⟨qtrunc_nonneg (add_nonneg (by exact_mod_cast h0) ?_), h1, h2, h3⟩
      have hsffpos : 0 < size_fillfactor_of target c mn mx :=
        lt_trans (by norm_num [SIZE_FILLFACTOR_THRESH]) hU.2
      exact (div_pos (slice_cast_pos hc.1) hsffpos).le
    · by_cases hD : INTERVAL_FILLFACTOR_THRESH < interval_fillfactor_of c mn mx
      · have hsffpos : 0 < size_fillfactor_of target c mn mx :=
          size_fillfactor_pos htar hc.2.1 hD
            (interval_fillfactor_le_one hc.1 (hc.2.2 mn mx hmm))
        rw [classify_step_undersized target s hmm hD (fun hs => hU ⟨hD, hs⟩)]
        refine ⟨h0, ?_, ?_, ?_⟩
        · have : 0 < slice_interval c := by
            unfold slice_interval; omega
          exact add_nonneg h1 this.le
        · exact add_nonneg h2 hsffpos.le
        · intro _
          exact add_pos_of_nonneg_of_pos h2 hsffpos
      · rw [classify_step_ignored target s hmm hD]
        exact ⟨h0, h1, h2, h3⟩

/-- Accumulator invariant of the classification loop over a window. -/
lemma foldl_classify_invariant {target : Int} (htar : 0 < target) :
    ∀ (l : List ChunkSample) (s : AccState),
      (∀ c ∈ l, c.range_start < c.range_end ∧ 1 ≤ c.chunk_size ∧
        ∀ mn mx, c.minmax = some (mn, mx) →
          mx - mn ≤ c.range_end - c.range_start) →
      0 ≤ s.chunk_interval → 0 ≤ s.undersized_intervals →
      0 ≤ s.undersized_fillfactor →
      (s.num_undersized_intervals ≠ 0 → 0 < s.undersized_fillfactor) →
      0 ≤ (l.foldl (classify_step target) s).chunk_interval ∧
      0 ≤ (l.foldl (classify_step target) s).undersized_intervals ∧
      0 ≤ (l.foldl (classify_step target) s).undersized_fillfactor ∧
      ((l.foldl (classify_step target) s).num_undersized_intervals ≠ 0 →
        0 < (l.foldl (classify_step target) s).undersized_fillfactor) := by
  intro l
  induction l with
  | nil => intro s _ h0 h1 h2 h3; exact ⟨h0, h1, h2, h3⟩
  | cons c rest ih =>
    intro s hl h0 h1 h2 h3
    rw [List.foldl_cons]
    have hstep := classify_step_invariant htar s c (hl c (by simp)) h0 h1 h2 h3
    exact ih (classify_step target s c) (fun d hd => hl d (by simp [hd]))
      hstep.1 hstep.2.1 hstep.2.2.1 hstep.2.2.2

lemma dampen_nonneg {current_interval ci : Int} (hcur : 0 ≤ current_interval)
    (hci : 0 ≤ ci) : 0 ≤ dampen current_interval ci := by
  unfold dampen
  dsimp only
  split_ifs <;> assumption

/-- With at least one undersized sample collected and a strictly positive
fillfactor sum, the boost candidate is nonnegative.  The positivity
hypothesis matters: it makes `avg_fillfactor` strictly positive, so the
conclusion does not depend on the model's convention for division by
zero (where the C source would compute an infinite `incr_factor` and
perform an undefined double-to-int64 conversion, see `boost_candidate`). -/
lemma boost_candidate_nonneg_of_pos {s : AccState}
    (h1 : 0 ≤ s.undersized_intervals)
    (hn : s.num_undersized_intervals ≠ 0)
    (h2 : 0 < s.undersized_fillfactor) : 0 ≤ boost_candidate s := by
  unfold boost_candidate
  dsimp only
  apply qtrunc_nonneg
  apply mul_nonneg
  · exact_mod_cast tdiv_nonneg_of_nonneg h1 (Int.ofNat_nonneg _)
  · have havg : 0 < s.undersized_fillfactor /
        ((s.num_undersized_intervals : Nat) : ℚ) :=
      div_pos h2 (by exact_mod_cast Nat.pos_of_ne_zero hn)
    exact (div_pos
      (by norm_num [UNDERSIZED_FILLFACTOR_THRESH, SIZE_FILLFACTOR_THRESH])
      havg).le

/-- C2 counterexample: with current interval 100, positive target 100 and
a valid window (slice 0..1, chunk size 1000, located span 0..1), the
usable chunk's implied interval 1/10 truncates to 0, the candidate 0
differs from 100 by 100%, and the function returns 0 — not a strictly
positive interval. -/
theorem c2_returns_zero_counterexample :
    calculate_chunk_interval 100 100 [⟨0, 1, 1000, some (0, 1)⟩] = 0 ∧
    ¬ (0 < calculate_chunk_interval 100 100 [⟨0, 1, 1000, some (0, 1)⟩]) := by
  have hff : interval_fillfactor_of ⟨0, 1, 1000, some (0, 1)⟩ 0 1 = 1 := by
    unfold interval_fillfactor_of slice_interval; norm_num
  have hex : extrapolated_chunk_size_of ⟨0, 1, 1000, some (0, 1)⟩ 0 1
      = 1000 := by
    unfold extrapolated_chunk_size_of
    rw [hff]
    exact qtrunc_eval 1000 (by norm_num) (by norm_num) (by norm_num)
  have hsff : size_fillfactor_of 100 ⟨0, 1, 1000, some (0, 1)⟩ 0 1 = 10 := by
    unfold size_fillfactor_of; rw [hex]; norm_num
  have hcontrib : usable_contribution 100 ⟨0, 1, 1000, some (0, 1)⟩ 0 1
      = 1/10 := by
    unfold usable_contribution slice_interval; rw [hsff]; norm_num
  have hws : window_state 100 [⟨0, 1, 1000, some (0, 1)⟩] = ⟨0, 0, 1, 0, 0⟩ := by
    unfold window_state
    rw [List.foldl_cons, List.foldl_nil,
      classify_step_usable 100 _ rfl
        (by rw [hff]; norm_num [INTERVAL_FILLFACTOR_THRESH])
        (by rw [hsff]; norm_num [SIZE_FILLFACTOR_THRESH]),
      hcontrib]
    have : qtrunc (((0 : Int) : ℚ) + 1/10) = 0 :=
      qtrunc_eval 0 (by norm_num) (by norm_num) (by norm_num)
    rw [this]
  have hcalc : calculate_chunk_interval 100 100 [⟨0, 1, 1000, some (0, 1)⟩]
      = 0 := by
    unfold calculate_chunk_interval
    rw [hws]
    rw [if_neg (by simp), if_neg (by simp)]
    unfold usable_candidate dampen
    norm_num [INTERVAL_MIN_CHANGE_THRESH]
  exact ⟨hcalc, by rw [hcalc]; exact lt_irrefl 0⟩

/-- C2 amended: under a positive current interval and target, and a
window whose chunks have valid slices (`range_start < range_end`),
physical size of at least one byte, and located spans no wider than
their slice, the returned interval is nonnegative (it can be exactly 0,
as the counterexample shows, so "never ≤ 0" weakens to "never < 0").
The size and span hypotheses matter beyond convenience: they force every
undersized sample's `size_fillfactor` to be strictly positive (see
`size_fillfactor_pos`), so on this domain the boost path's
`avg_fillfactor` is strictly positive and the C source's division
`UNDERSIZED_FILLFACTOR_THRESH / avg_fillfactor` is finite — outside it
(e.g. chunks whose truncated extrapolated size is 0) the C code computes
an infinite `incr_factor` and the undefined double-to-int64 conversion
of line 603, which the rational model does not represent. -/
theorem c2_interval_nonneg (current target : Int) (chunks : List ChunkSample)
    (hcur : 0 < current) (htar : 0 < target)
    (hvalid : ∀ c ∈ chunks, c.range_start < c.range_end ∧ 1 ≤ c.chunk_size ∧
      ∀ mn mx, c.minmax = some (mn, mx) →
        mx - mn ≤ c.range_end - c.range_start) :
    0 ≤ calculate_chunk_interval current target chunks := by
  have inv := foldl_classify_invariant htar chunks ⟨0, 0, 0, 0, 0⟩ hvalid
    le_rfl le_rfl le_rfl (fun h => absurd rfl h)
  unfold calculate_chunk_interval
  dsimp only
  split_ifs with hA hB
  · have hn : (window_state target chunks).num_undersized_intervals ≠ 0 := by
      have h := hA.2
      have h' : 1 < (window_state target chunks).num_undersized_intervals := h
      omega
    exact dampen_nonneg hcur.le
      (boost_candidate_nonneg_of_pos inv.2.1 hn (inv.2.2.2 hn))
  · exact hcur.le
  · refine dampen_nonneg hcur.le ?_
    unfold usable_candidate
    exact tdiv_nonneg_of_nonneg inv.1 (Int.ofNat_nonneg _)

/-- Witness for C2's amended theorem, at the counterexample's input
(where the result is in fact exactly 0). -/
theorem c2_interval_nonneg_witness :
    0 ≤ calculate_chunk_interval 100 100 [⟨0, 1, 1000, some (0, 1)⟩] :=
  c2_interval_nonneg 100 100 [⟨0, 1, 1000, some (0, 1)⟩]
    (by norm_num) (by norm_num)
    (by
      intro c hc
      simp at hc
      subst hc
      refine ⟨by norm_num, by norm_num, ?_⟩
      intro mn mx h
      simp at h
      show mx - mn ≤ 1 - 0
      omega)

/-! The memory-budget estimator (`estimate_effective_memory_cache_size`,
source lines 117-163).  The two GUC reads are `Option Int` inputs in
blocks (`none` models a missing or unparsable setting, which the source
turns into `elog(ERROR, ...)`, modelled as result `none`); the system
memory probe and the test override are `Int` inputs. -/

/-- PostgreSQL's block size in bytes (`BLCKSZ`, default build). -/
def BLCKSZ : Int := 8192

/-- `estimate_effective_memory_cache_size` (source lines 117-163): a
positive test override is returned directly; otherwise the maximum of
`shared_buffers` and `effective_cache_size` (both in blocks) is converted
to bytes and capped at half of system memory. -/
def estimate_effective_memory_cache_size
    (fixed_effective_memory_cache_size system_memory : Int)
    (shared_buffers effective_cache_size : Option Int) : Option Int :=
  let sysmem_bound_bytes := Int.tdiv system_memory 2
  if 0 < fixed_effective_memory_cache_size then
    some fixed_effective_memory_cache_size
  else
    match shared_buffers with
    | none => none
    | some sb =>
      match effective_cache_size with
      | none => none
      | some ecs =>
        let memory_bytes := max sb ecs * BLCKSZ
        some (if sysmem_bound_bytes < memory_bytes then sysmem_bound_bytes
              else memory_bytes)

/-- C9: without a positive override the estimator returns the larger of
the two configured cache sizes converted from blocks to bytes, clamped
from above by half of system memory; with a positive override it returns
the override verbatim, whatever the configuration reads would have
yielded (even when they would fail). -/
theorem c9_memory_budget (fixed sysmem sb ecs : Int) :
    (fixed ≤ 0 →
      estimate_effective_memory_cache_size fixed sysmem (some sb) (some ecs) =
        some (min (max (sb * BLCKSZ) (ecs * BLCKSZ)) (Int.tdiv sysmem 2))) ∧
    (0 < fixed → ∀ cfg1 cfg2 : Option Int,
      estimate_effective_memory_cache_size fixed sysmem cfg1 cfg2 =
        some fixed) := by
  constructor
  · intro hle
    unfold estimate_effective_memory_cache_size
    rw [if_neg (not_lt.mpr hle)]
    dsimp only
    have hmax : max sb ecs * BLCKSZ = max (sb * BLCKSZ) (ecs * BLCKSZ) :=
      max_mul_of_nonneg sb ecs (by norm_num [BLCKSZ])
    rw [hmax]
    rcases lt_or_ge (Int.tdiv sysmem 2) (max (sb * BLCKSZ) (ecs * BLCKSZ)) with hlt | hge
    · rw [if_pos hlt, min_eq_right hlt.le]
    · rw [if_neg (not_lt.mpr hge), min_eq_left hge]
  · intro hpos cfg1 cfg2
    unfold estimate_effective_memory_cache_size
    rw [if_pos hpos]

/-- Witness for C9: no override (-1, the initial value of the source's
static) with 10- and 20-block settings against 1000000 bytes of system
memory, and a positive override 42 with failing configuration reads. -/
theorem c9_memory_budget_witness :
    estimate_effective_memory_cache_size (-1) 1000000 (some 10) (some 20) =
      some 163840 ∧
    estimate_effective_memory_cache_size 42 7 none (some 5) = some 42 := by
  constructor
  · rw [(c9_memory_budget (-1) 1000000 10 20).1 (by norm_num)]
    decide
  · exact (c9_memory_budget 42 7 0 0).2 (by norm_num) none (some 5)

/-- A chunk that the classification loop counts as usable: min/max were
found and both fillfactor thresholds are strictly exceeded (the first
branch of source lines 559-564). -/
def IsUsable (target : Int) (c : ChunkSample) : Prop :=
  match c.minmax with
  | some (mn, mx) =>
    INTERVAL_FILLFACTOR_THRESH < interval_fillfactor_of c mn mx ∧
    SIZE_FILLFACTOR_THRESH < size_fillfactor_of target c mn mx
  | none => False

lemma IsUsable.dest {target : Int} {c : ChunkSample} (h : IsUsable target c) :
    ∃ mn mx, c.minmax = some (mn, mx) ∧
      INTERVAL_FILLFACTOR_THRESH < interval_fillfactor_of c mn mx ∧
      SIZE_FILLFACTOR_THRESH < size_fillfactor_of target c mn mx := by
  unfold IsUsable at h
  rcases hmm : c.minmax with _ | ⟨mn, mx⟩
  · rw [hmm] at h; exact h.elim
  · rw [hmm] at h; exact ⟨mn, mx, rfl, h⟩

lemma usable_contribution_nonneg {target : Int} {c : ChunkSample}
    {mn mx : Int} (hslice : c.range_start < c.range_end)
    (hsff : SIZE_FILLFACTOR_THRESH < size_fillfactor_of target c mn mx) :
    0 ≤ usable_contribution target c mn mx :=
  (div_pos (slice_cast_pos hslice)
    (lt_trans (by norm_num [SIZE_FILLFACTOR_THRESH]) hsff)).le

/-- Over a window of usable chunks the usable count grows by exactly the
window length. -/
lemma foldl_usable_count (target : Int) :
    ∀ (l : List ChunkSample), (∀ c ∈ l, IsUsable target c) →
      ∀ s : AccState,
        (List.foldl (classify_step target) s l).num_intervals =
          s.num_intervals + l.length := by
  intro l
  induction l with
  | nil => intro _ s; simp
  | cons c rest ih =>
    intro hl s
    obtain ⟨mn, mx, hmm, h1, h2⟩ := (hl c (by simp)).dest
    rw [List.foldl_cons, classify_step_usable target s hmm h1 h2,
      ih (fun d hd => hl d (by simp [hd]))]
    simp
    omega

/-- Folding the same all-usable window from two accumulator states with
ordered nonnegative `chunk_interval` and equal usable counts preserves
order, nonnegativity and count equality. -/
lemma foldl_usable_mono (target : Int) :
    ∀ (l : List ChunkSample),
      (∀ c ∈ l, IsUsable target c ∧ c.range_start < c.range_end) →
      ∀ s1 s2 : AccState,
        0 ≤ s2.chunk_interval → s2.chunk_interval ≤ s1.chunk_interval →
        s2.num_intervals = s1.num_intervals →
        0 ≤ (List.foldl (classify_step target) s2 l).chunk_interval ∧
        (List.foldl (classify_step target) s2 l).chunk_interval ≤
          (List.foldl (classify_step target) s1 l).chunk_interval ∧
        (List.foldl (classify_step target) s2 l).num_intervals =
          (List.foldl (classify_step target) s1 l).num_intervals := by
  intro l
  induction l with
  | nil => intro _ s1 s2 h0 hle hn; exact ⟨h0, hle, hn⟩
  | cons c rest ih =>
    intro hl s1 s2 h0 hle hn
    obtain ⟨mn, mx, hmm, h1, h2⟩ := (hl c (by simp)).1.dest
    have hcontrib : 0 ≤ usable_contribution target c mn mx :=
      usable_contribution_nonneg (hl c (by simp)).2 h2
    rw [List.foldl_cons, List.foldl_cons,
      classify_step_usable target s1 hmm h1 h2,
      classify_step_usable target s2 hmm h1 h2]
    refine ih (fun d hd => hl d (by simp [hd])) _ _ ?_ ?_ ?_
    · exact qtrunc_nonneg (add_nonneg (by exact_mod_cast h0) hcontrib)
    · exact qtrunc_mono_of_nonneg
        (add_nonneg (by exact_mod_cast h0) hcontrib)
        (add_le_add_right (by exact_mod_cast hle) _)
    · simp [hn]

/-- C8 amended: enlarging one usable sample's physical size (everything
else fixed, every sample usable) makes the pre-dampening candidate
interval smaller **or equal** — monotone, but not strictly, because the
per-chunk implied intervals are truncated into an `int64` accumulator. -/
theorem c8_candidate_size_antitone (target : Int) (pre post : List ChunkSample)
    (c : ChunkSample) (sz2 : Int) (htar : 0 < target)
    (hsz0 : 0 ≤ c.chunk_size) (hszlt : c.chunk_size < sz2)
    (hvalid : ∀ d ∈ pre ++ c :: post,
      IsUsable target d ∧ d.range_start < d.range_end) :
    candidate_interval target (pre ++ { c with chunk_size := sz2 } :: post) ≤
      candidate_interval target (pre ++ c :: post) := by
  obtain ⟨mn, mx, hmm, h1, h2⟩ := (hvalid c (by simp)).1.dest
  have hslice : c.range_start < c.range_end := (hvalid c (by simp)).2
  have hffpos : 0 < interval_fillfactor_of c mn mx :=
    interval_fillfactor_pos_of_thresh h1
  have htarQ : (0 : ℚ) < ((target : Int) : ℚ) := by exact_mod_cast htar
  have hmm' : ({ c with chunk_size := sz2 } : ChunkSample).minmax
      = some (mn, mx) := hmm
  have h1' : INTERVAL_FILLFACTOR_THRESH <
      interval_fillfactor_of { c with chunk_size := sz2 } mn mx := h1
  have hexmono : extrapolated_chunk_size_of c mn mx ≤
      extrapolated_chunk_size_of { c with chunk_size := sz2 } mn mx := by
    unfold extrapolated_chunk_size_of
    apply qtrunc_mono_of_nonneg (div_nonneg (by exact_mod_cast hsz0) hffpos.le)
    exact (div_le_div_right hffpos).mpr (by exact_mod_cast hszlt.le)
  have hsffmono : size_fillfactor_of target c mn mx ≤
      size_fillfactor_of target { c with chunk_size := sz2 } mn mx := by
    unfold size_fillfactor_of
    exact (div_le_div_right htarQ).mpr (by exact_mod_cast hexmono)
  have hsffpos : 0 < size_fillfactor_of target c mn mx :=
    lt_trans (by norm_num [SIZE_FILLFACTOR_THRESH]) h2
  have h2' : SIZE_FILLFACTOR_THRESH <
      size_fillfactor_of target { c with chunk_size := sz2 } mn mx :=
    lt_of_lt_of_le h2 hsffmono
  have hsff'pos : 0 < size_fillfactor_of target { c with chunk_size := sz2 }
      mn mx := lt_of_lt_of_le hsffpos hsffmono
  have hcontribmono : usable_contribution target { c with chunk_size := sz2 }
      mn mx ≤ usable_contribution target c mn mx := by
    unfold usable_contribution
    exact (div_le_div_left (slice_cast_pos hslice) hsff'pos hsffpos).mpr
      hsffmono
  have hprevalid : ∀ d ∈ pre, IsUsable target d ∧ d.range_start < d.range_end :=
    fun d hd => hvalid d (by simp [hd])
  have hpostvalid : ∀ d ∈ post, IsUsable target d ∧ d.range_start < d.range_end :=
    fun d hd => hvalid d (by simp [hd])
  have hs0nonneg : 0 ≤ (List.foldl (classify_step target)
      ⟨0, 0, 0, 0, 0⟩ pre).chunk_interval :=
    (foldl_usable_mono target pre hprevalid _ _ le_rfl le_rfl rfl).1
  have hstep1 := classify_step_usable target
    (List.foldl (classify_step target) ⟨0, 0, 0, 0, 0⟩ pre) hmm h1 h2
  have hstep2 := classify_step_usable target
    (List.foldl (classify_step target) ⟨0, 0, 0, 0, 0⟩ pre) hmm' h1' h2'
  have hc'slice : ({ c with chunk_size := sz2 } : ChunkSample).range_start <
      ({ c with chunk_size := sz2 } : ChunkSample).range_end := hslice
  have hmono := foldl_usable_mono target post hpostvalid
    (classify_step target (List.foldl (classify_step target) ⟨0, 0, 0, 0, 0⟩ pre) c)
    (classify_step target (List.foldl (classify_step target) ⟨0, 0, 0, 0, 0⟩ pre)
      { c with chunk_size := sz2 })
    (by
      rw [hstep2]
      exact qtrunc_nonneg (add_nonneg (by exact_mod_cast hs0nonneg)
        (usable_contribution_nonneg hc'slice h2')))
    (by
      rw [hstep1, hstep2]
      exact qtrunc_mono_of_nonneg
        (add_nonneg (by exact_mod_cast hs0nonneg)
          (usable_contribution_nonneg hc'slice h2'))
        (add_le_add_left hcontribmono _))
    (by rw [hstep1, hstep2])
  have hW1 : window_state target (pre ++ c :: post) =
      List.foldl (classify_step target)
        (classify_step target
          (List.foldl (classify_step target) ⟨0, 0, 0, 0, 0⟩ pre) c) post := by
    unfold window_state
    rw [List.foldl_append, List.foldl_cons]
  have hW2 : window_state target (pre ++ { c with chunk_size := sz2 } :: post) =
      List.foldl (classify_step target)
        (classify_step target
          (List.foldl (classify_step target) ⟨0, 0, 0, 0, 0⟩ pre)
          { c with chunk_size := sz2 }) post := by
    unfold window_state
    rw [List.foldl_append, List.foldl_cons]
  have husable' : IsUsable target { c with chunk_size := sz2 } := by
    unfold IsUsable
    rw [hmm']
    exact ⟨h1', h2'⟩
  have hcount1 : (window_state target (pre ++ c :: post)).num_intervals =
      (pre ++ c :: post).length := by
    unfold window_state
    rw [foldl_usable_count target _ (fun d hd => (hvalid d hd).1)]
    simp
  have hcount2 : (window_state target
      (pre ++ { c with chunk_size := sz2 } :: post)).num_intervals =
      (pre ++ c :: post).length := by
    rw [hW2, hmono.2.2, ← hW1, hcount1]
  have hlenpos : 0 < (pre ++ c :: post).length := by simp
  unfold candidate_interval
  rw [if_neg (by rw [hcount2]; omega), if_neg (by rw [hcount1]; omega)]
  unfold usable_candidate
  rw [hcount1, hcount2, hW1, hW2]
  exact tdiv_le_tdiv_right hmono.1 (Int.ofNat_nonneg _) hmono.2.1

lemma qtrunc_intCast (n : Int) : qtrunc ((n : Int) : ℚ) = n := by
  unfold qtrunc
  split_ifs with h
  · exact Int.floor_intCast n
  · rw [← Int.cast_neg, Int.floor_intCast]
    omega

/-- A window of one chunk with unit slice 0..1, full located span and
size `sz > 100` against target 100 is usable, and its implied interval
`100/sz < 1` truncates to a zero accumulator. -/
lemma unit_slice_facts (sz : Int) (hsz : 100 < sz) :
    IsUsable 100 ⟨0, 1, sz, some (0, 1)⟩ ∧
    window_state 100 [⟨0, 1, sz, some (0, 1)⟩] = ⟨0, 0, 1, 0, 0⟩ := by
  have hszQ : (100 : ℚ) < ((sz : Int) : ℚ) := by exact_mod_cast hsz
  have hff : interval_fillfactor_of ⟨0, 1, sz, some (0, 1)⟩ 0 1 = 1 := by
    unfold interval_fillfactor_of slice_interval; norm_num
  have hex : extrapolated_chunk_size_of ⟨0, 1, sz, some (0, 1)⟩ 0 1 = sz := by
    unfold extrapolated_chunk_size_of
    rw [hff, div_one]
    exact qtrunc_intCast sz
  have hsff : size_fillfactor_of 100 ⟨0, 1, sz, some (0, 1)⟩ 0 1
      = ((sz : Int) : ℚ) / 100 := by
    unfold size_fillfactor_of
    rw [hex]
    norm_num
  have hsffgt : SIZE_FILLFACTOR_THRESH < ((sz : Int) : ℚ) / 100 := by
    rw [SIZE_FILLFACTOR_THRESH]
    rw [div_lt_div_iff (by norm_num) (by norm_num)]
    linarith
  have hcontrib : usable_contribution 100 ⟨0, 1, sz, some (0, 1)⟩ 0 1
      = 100 / ((sz : Int) : ℚ) := by
    unfold usable_contribution slice_interval
    rw [hsff]
    rw [show (((1 : Int) - 0 : Int) : ℚ) = 1 by norm_num, one_div_div]
  have husable : IsUsable 100 ⟨0, 1, sz, some (0, 1)⟩ := by
    unfold IsUsable
    exact ⟨by rw [hff]; norm_num [INTERVAL_FILLFACTOR_THRESH],
      by rw [hsff]; exact hsffgt⟩
  refine ⟨husable, ?_⟩
  unfold window_state
  rw [List.foldl_cons, List.foldl_nil,
    classify_step_usable 100 _ rfl
      (by rw [hff]; norm_num [INTERVAL_FILLFACTOR_THRESH])
      (by rw [hsff]; exact hsffgt),
    hcontrib]
  have hquot : qtrunc (((0 : Int) : ℚ) + 100 / ((sz : Int) : ℚ)) = 0 := by
    apply qtrunc_eval 0
    · positivity
    · push_cast
      positivity
    · rw [show ((0 : Int) : ℚ) + 100 / ((sz : Int) : ℚ)
          = 100 / ((sz : Int) : ℚ) by ring]
      rw [div_lt_iff (by linarith)]
      push_cast
      linarith
  rw [hquot]

lemma candidate_unit_slice (sz : Int) (hsz : 100 < sz) :
    candidate_interval 100 [⟨0, 1, sz, some (0, 1)⟩] = 0 := by
  unfold candidate_interval
  rw [(unit_slice_facts sz hsz).2]
  decide

/-- C8 counterexample: two single-chunk windows identical except that the
chunk's physical size grows from 1000 to 1001 bytes (both chunks usable
against target 100), yet the pre-dampening candidate is 0 in both runs —
the candidate of the larger-size run is *not* strictly smaller, because
`slice_interval / size_fillfactor` (1/10 resp. 100/1001) truncates to the
same `int64` value 0. -/
theorem c8_strictness_counterexample :
    candidate_interval 100 [⟨0, 1, 1001, some (0, 1)⟩] = 0 ∧
    candidate_interval 100 [⟨0, 1, 1000, some (0, 1)⟩] = 0 ∧
    IsUsable 100 ⟨0, 1, 1000, some (0, 1)⟩ ∧
    IsUsable 100 ⟨0, 1, 1001, some (0, 1)⟩ ∧
    ¬ (candidate_interval 100 [⟨0, 1, 1001, some (0, 1)⟩] <
        candidate_interval 100 [⟨0, 1, 1000, some (0, 1)⟩]) := by
  have h1001 := candidate_unit_slice 1001 (by norm_num)
  have h1000 := candidate_unit_slice 1000 (by norm_num)
  exact ⟨h1001, h1000, (unit_slice_facts 1000 (by norm_num)).1,
    (unit_slice_facts 1001 (by norm_num)).1,
    by rw [h1001, h1000]; exact lt_irrefl 0⟩

/-- Witness for C8's amended theorem: the single-chunk windows of the
counterexample, where the inequality holds with equality (0 ≤ 0). -/
theorem c8_candidate_size_antitone_witness :
    candidate_interval 100 [⟨0, 1, 1001, some (0, 1)⟩] ≤
      candidate_interval 100 [⟨0, 1, 1000, some (0, 1)⟩] :=
  c8_candidate_size_antitone 100 [] [] ⟨0, 1, 1000, some (0, 1)⟩ 1001
    (by norm_num) (by norm_num) (by norm_num)
    (by
      intro d hd
      simp at hd
      rw [hd]
      exact ⟨(unit_slice_facts 1000 (by norm_num)).1, by norm_num⟩)

end ChunkAdaptive
